import Mathlib

/-!
Verification of the forecast-metrics computations of
`demand_forecast_dashboard.py` (WMAPE model comparison, promo volume impact,
Sharpe-style stability ratio, RSI and Bollinger bands).

The numeric column values (pandas/numpy floats) are embedded as exact
rationals; pandas NaN results are represented explicitly by a dedicated
constructor rather than silently, so that statements about "NaN versus
error" can be made precise.
-/

namespace ForecastDashboard

/-- Python negative-index tail slice `xs[-k:]`: for `k = 0` this is `xs[0:]`,
the whole list; otherwise the trailing `min k xs.length` elements. -/
def pyTailSlice (xs : List ℚ) (k : Nat) : List ℚ :=
  if k = 0 then xs else xs.drop (xs.length - k)

/-- Line 177 of the dashboard: `actual = df_hist['Actuals'].values[-len(pred):]`. -/
def alignActuals (actual pred : List ℚ) : List ℚ :=
  pyTailSlice actual pred.length

/-- NumPy 1-d elementwise subtraction with broadcasting: defined when the two
lengths agree or one operand has length 1 (which is then broadcast against the
other); any other length mismatch raises in numpy, represented here by `none`. -/
def npSub1d (a b : List ℚ) : Option (List ℚ) :=
  if a.length = b.length then some (List.zipWith (fun x y => x - y) a b)
  else
    match a, b with
    | [x], b => some (b.map (fun y => x - y))
    | a, [y] => some (a.map (fun x => x - y))
    | _, _ => none

/-- `np.abs` applied elementwise. -/
def npAbs (l : List ℚ) : List ℚ := l.map (fun x => |x|)

/-- `np.sum` of a 1-d array. -/
def npSum (l : List ℚ) : ℚ := l.sum

/-- Line 178 of the dashboard:
`np.sum(np.abs(actual - pred)) / np.sum(actual) if np.sum(actual) != 0 else 0`.
The Python conditional expression evaluates the guard first, so when
`np.sum(actual) == 0` the subtraction (and any broadcast failure) never
happens and the result is 0. -/
def wmape (actual pred : List ℚ) : Option ℚ :=
  if npSum actual ≠ 0 then
    (npSub1d actual pred).map (fun d => npSum (npAbs d) / npSum actual)
  else some 0

lemma npSub1d_same_length {a b : List ℚ} (h : a.length = b.length) :
    npSub1d a b = some (List.zipWith (fun x y => x - y) a b) := by
  rw [npSub1d.eq_def, if_pos h]

lemma zipWith_abs_mem_nonneg :
    ∀ (a f : List ℚ), ∀ x ∈ List.zipWith (fun p q => |p - q|) a f, 0 ≤ x
  | [], _, x, hx => by simp at hx
  | _ :: _, [], x, hx => by simp at hx
  | p :: a, q :: f, x, hx => by
      rcases List.mem_cons.mp hx with h | h
      · rw [h]; exact abs_nonneg _
      · exact zipWith_abs_mem_nonneg a f x h

lemma zipWith_abs_sub_comm :
    ∀ (a f : List ℚ), List.zipWith (fun x y => |x - y|) a f
      = List.zipWith (fun x y => |y - x|) a f
  | [], _ => by simp
  | _ :: _, [] => by simp
  | x :: a, y :: f => by
      simp only [List.zipWith_cons_cons, abs_sub_comm x y, zipWith_abs_sub_comm a f]

lemma npSum_npAbs_nonneg (l : List ℚ) : 0 ≤ npSum (npAbs l) := by
  apply List.sum_nonneg
  intro x hx
  rcases List.mem_map.mp hx with ⟨y, _, rfl⟩
  exact abs_nonneg y

/-- Claim C1: for non-empty equal-length aligned `actual`/`forecast` with
`sum actual ≠ 0`, `wmape` is the sum of absolute errors over the sum of
actuals; when the sum is positive the value is nonnegative, a perfect
forecast scores 0, and the worked example scores 5/100 = 0.05. -/
theorem wmape_formula_and_example (a f : List ℚ)
    (hne : a ≠ []) (hlen : a.length = f.length) (hsum : npSum a ≠ 0) :
    wmape a f = some (npSum (List.zipWith (fun x y => |y - x|) a f) / npSum a)
    ∧ (0 < npSum a → ∀ v, wmape a f = some v → 0 ≤ v)
    ∧ wmape a a = some 0
    ∧ wmape [100, 100, 100, 100] [110, 90, 100, 100] = some (5 / 100) := by
  have hform : wmape a f
      = some (npSum (List.zipWith (fun x y => |y - x|) a f) / npSum a) := by
    rw [wmape, if_pos hsum, npSub1d_same_length hlen]
    rw [Option.map_some', npAbs, List.map_zipWith, zipWith_abs_sub_comm]
  refine ⟨hform, ?_, ?_, by norm_num [wmape, npSum, npSub1d, npAbs]⟩
  · intro hpos v hv
    rw [hform] at hv
    obtain rfl : npSum (List.zipWith (fun x y => |y - x|) a f) / npSum a = v :=
      Option.some.inj hv
    have h1 : 0 ≤ npSum (List.zipWith (fun x y => |y - x|) a f) := by
      rw [← zipWith_abs_sub_comm]
      exact List.sum_nonneg (zipWith_abs_mem_nonneg a f)
    exact div_nonneg h1 (le_of_lt hpos)
  · rw [wmape, if_pos hsum, npSub1d_same_length rfl, Option.map_some']
    have : npSum (npAbs (List.zipWith (fun x y => x - y) a a)) = 0 := by
      rw [List.zipWith_same, npAbs, List.map_map]
      apply List.sum_eq_zero
      intro x hx
      rcases List.mem_map.mp hx with ⟨y, _, rfl⟩
      simp
    rw [this, zero_div]

/-- Claim C1 witness: the worked example `actual = [100,100,100,100]`,
`forecast = [110,90,100,100]` gives WMAPE 5/100 = 0.05. -/
theorem wmape_formula_and_example_witness :
    wmape [100, 100, 100, 100] [110, 90, 100, 100] = some (5 / 100) :=
  (wmape_formula_and_example [100, 100, 100, 100] [110, 90, 100, 100]
    (by decide) (by decide) (by norm_num [npSum])).2.2.2

/-- Claim C2: for non-empty `actual` and non-empty `pred`, the alignment step
keeps the trailing `len pred` actuals (dropping from the front), the aligned
actuals form a suffix of the originals of length `min (len pred) (len actual)`,
and when the actuals are shorter than the forecast the whole actual list is
kept; in all cases alignment is total (it never fails). -/
theorem alignActuals_trailing (a p : List ℚ) (ha : a ≠ []) (hp : p ≠ []) :
    alignActuals a p = a.drop (a.length - p.length)
    ∧ (alignActuals a p).length = min p.length a.length
    ∧ (alignActuals a p).IsSuffix a
    ∧ (a.length < p.length → alignActuals a p = a) := by
  have hp0 : p.length ≠ 0 := by
    intro h
    exact hp (List.length_eq_zero.mp h)
  have hdef : alignActuals a p = a.drop (a.length - p.length) := by
    rw [alignActuals, pyTailSlice, if_neg hp0]
  refine ⟨hdef, ?_, ?_, ?_⟩
  · rw [hdef, List.length_drop]
    omega
  · rw [hdef]
    exact List.drop_suffix _ _
  · intro hlt
    rw [hdef, Nat.sub_eq_zero_of_le (le_of_lt hlt), List.drop_zero]

/-- Claim C2 witness: aligning actuals `[1,2,3]` with a 2-element forecast
keeps the trailing two actuals. -/
theorem alignActuals_trailing_witness :
    alignActuals [1, 2, 3] [4, 5]
      = List.drop (([1, 2, 3] : List ℚ).length - ([4, 5] : List ℚ).length) [1, 2, 3] :=
  (alignActuals_trailing [1, 2, 3] [4, 5] (by decide) (by decide)).1

/-- Claim C6: with equal-length aligned inputs whose actuals sum to zero,
`wmape` returns exactly 0 (the guard short-circuits before any division). -/
theorem wmape_zero_sum (a f : List ℚ)
    (hlen : a.length = f.length) (h0 : npSum a = 0) :
    wmape a f = some 0 := by
  rw [wmape, if_neg (by simpa using h0)]

/-- Claim C6 witness: actuals `[1,-1]` sum to zero so the WMAPE against
`[5,7]` is 0. -/
theorem wmape_zero_sum_witness : wmape [1, -1] [5, 7] = some 0 :=
  wmape_zero_sum [1, -1] [5, 7] (by decide) (by norm_num [npSum])

/-- Claim C10 counterexample: with an empty forecast and the non-empty actual
list `[1]`, the tail slice keeps the whole actual list, yet `wmape` still
returns the value 0 (numpy broadcasts the length-1 actual against the empty
forecast to an empty difference), contradicting the claim that no value is
returned. -/
theorem wmape_empty_forecast_counterexample :
    alignActuals [1] [] = [1] ∧ wmape (alignActuals [1] []) [] = some 0 := by
  refine ⟨rfl, ?_⟩
  norm_num [wmape, alignActuals, pyTailSlice, npSum, npSub1d, npAbs]

/-- Claim C10 amended: with an empty forecast and non-empty actuals the tail
slice keeps the whole actual list, so the aligned lengths differ; if the
actuals sum to zero the guard still returns 0, if the actuals have length at
least 2 the elementwise broadcast fails and no value is produced, and if
there is exactly one actual, numpy broadcasting yields an empty difference
and `wmape` returns 0. -/
theorem wmape_empty_forecast_behavior (a : List ℚ) (ha : a ≠ []) :
    alignActuals a [] = a
    ∧ (npSum a = 0 → wmape a [] = some 0)
    ∧ (npSum a ≠ 0 → 2 ≤ a.length → wmape a [] = none)
    ∧ (npSum a ≠ 0 → a.length = 1 → wmape a [] = some 0) := by
  refine ⟨rfl, ?_, ?_, ?_⟩
  · intro h0
    rw [wmape, if_neg (by simpa using h0)]
  · intro hsum hlen
    rw [wmape, if_pos hsum]
    rcases a with _ | ⟨x, _ | ⟨y, t⟩⟩
    · simp at hlen
    · simp at hlen
    · rfl
  · intro hsum hlen
    rcases List.length_eq_one.mp hlen with ⟨x, rfl⟩
    rw [wmape, if_pos hsum]
    show Option.map _ (some ((List.map (fun y => x - y) []))) = some 0
    rw [Option.map_some']
    show some (npSum (npAbs []) / npSum [x]) = some 0
    rw [show npSum (npAbs []) = 0 from rfl, zero_div]

/-- Claim C10 witness for the amended statement: a 2-element actual list with
nonzero sum and an empty forecast produces no value. -/
theorem wmape_empty_forecast_behavior_witness : wmape [5, 7] [] = none :=
  (wmape_empty_forecast_behavior [5, 7] (by decide)).2.2.1
    (by norm_num [npSum]) (by decide)

/-- A pandas scalar: either a number or the NaN produced by reductions over
empty data. NaN is an ordinary value that propagates through arithmetic,
not an exception. -/
inductive PdVal where
  | nan : PdVal
  | num : ℚ → PdVal
deriving DecidableEq

/-- Arithmetic mean of a list; used by both the pandas model and the spec-side
formulas. -/
def listMean (l : List ℚ) : ℚ := l.sum / l.length

/-- pandas `Series.mean`: NaN on an empty series, otherwise the mean. -/
def pdMean (l : List ℚ) : PdVal :=
  if l.isEmpty then PdVal.nan else PdVal.num (listMean l)

/-- Subtraction of pandas scalars: NaN propagates. -/
def pdSub : PdVal → PdVal → PdVal
  | PdVal.nan, _ => PdVal.nan
  | _, PdVal.nan => PdVal.nan
  | PdVal.num x, PdVal.num y => PdVal.num (x - y)

/-- Boolean-mask row selection `df_hist[df_hist['Promo'] == b]['Actuals']`:
the actual values whose aligned flag equals `b`. -/
def selectFlag (a : List ℚ) (fl : List Bool) (b : Bool) : List ℚ :=
  ((a.zip fl).filter (fun p => p.2 == b)).map Prod.fst

/-- Lines 236-237 of the dashboard:
`df_hist[Promo == 1]['Actuals'].mean() - df_hist[Promo == 0]['Actuals'].mean()`. -/
def promo_impact (a : List ℚ) (fl : List Bool) : PdVal :=
  pdSub (pdMean (selectFlag a fl true)) (pdMean (selectFlag a fl false))

/-- Claim C3 counterexample: with every flag true the non-promo partition is
empty, and `promo_impact` completes normally with the NaN value (the mean of
an empty selection is NaN and subtraction propagates it); no
`InsufficientDataError` is signalled anywhere in the computation. -/
theorem promo_impact_nan_counterexample :
    promo_impact [1, 2] [true, true] = PdVal.nan := by
  rfl

/-- Claim C3 amended: whenever either partition is empty, `promo_impact`
silently produces the NaN value (it does not raise an error). -/
theorem promo_impact_empty_partition_nan (a : List ℚ) (fl : List Bool)
    (h : selectFlag a fl true = [] ∨ selectFlag a fl false = []) :
    promo_impact a fl = PdVal.nan := by
  rcases h with h | h
  · rw [promo_impact, pdMean, if_pos (by rw [h]; rfl)]
    cases pdMean (selectFlag a fl false) <;> rfl
  · rw [promo_impact]
    rw [show pdMean (selectFlag a fl false) = PdVal.nan from by
      rw [pdMean, if_pos (by rw [h]; rfl)]]
    cases pdMean (selectFlag a fl true) <;> rfl

/-- Claim C3 witness for the amended statement: with no promo week at all the
promo partition is empty and the result is NaN. -/
theorem promo_impact_empty_partition_nan_witness :
    promo_impact [1, 2, 3] [false, false, false] = PdVal.nan :=
  promo_impact_empty_partition_nan [1, 2, 3] [false, false, false]
    (Or.inl (by decide))

/-- Claim C7: when both partitions are non-empty, `promo_impact` is the mean
of the flagged actuals minus the mean of the unflagged actuals, and the
worked example evaluates to -5/2 = -2.5. -/
theorem promo_impact_formula (a : List ℚ) (fl : List Bool)
    (ht : selectFlag a fl true ≠ []) (hf : selectFlag a fl false ≠ []) :
    promo_impact a fl
      = PdVal.num (listMean (selectFlag a fl true)
          - listMean (selectFlag a fl false))
    ∧ promo_impact [10, 20, 30, 5] [true, true, false, false]
        = PdVal.num (-(5 / 2)) := by
  constructor
  · rw [promo_impact, pdMean, pdMean,
      if_neg (by simpa [List.isEmpty_iff] using ht),
      if_neg (by simpa [List.isEmpty_iff] using hf)]
    rfl
  · norm_num [promo_impact, pdMean, listMean, pdSub, selectFlag]

/-- Claim C7 witness: the worked example `promo_impact([10,20,30,5],
[true,true,false,false])` evaluates to -5/2. -/
theorem promo_impact_formula_witness :
    promo_impact [10, 20, 30, 5] [true, true, false, false]
      = PdVal.num (-(5 / 2)) :=
  (promo_impact_formula [10, 20, 30, 5] [true, true, false, false]
    (by decide) (by decide)).2

/-- pandas `Series.pct_change()`: a leading NaN followed by the relative
changes `(a_i - a_{i-1}) / a_{i-1}`. A zero base value would give an
infinite (not NaN) float, which this rational model leaves undefined;
no claim touches that case. -/
def pctChange (a : List ℚ) : Option (List PdVal) :=
  if (0 : ℚ) ∈ a.dropLast then none
  else
    match a with
    | [] => some []
    | x :: t =>
        some (PdVal.nan :: List.zipWith (fun p c => PdVal.num ((c - p) / p)) (x :: t) t)

/-- The non-NaN entries of a pandas series, in order: pandas reductions
(mean, std) skip NaN. -/
def validVals (l : List PdVal) : List ℚ :=
  l.filterMap (fun v => match v with | PdVal.nan => none | PdVal.num q => some q)

/-- Sample variance with the pandas default `ddof = 1`: NaN (`none`) when
fewer than two valid values are present. -/
def sampleVarQ (v : List ℚ) : Option ℚ :=
  if v.length < 2 then none
  else some ((v.map (fun x => (x - listMean v) ^ 2)).sum / ((v.length : ℚ) - 1))

/-- A float scalar that may be NaN, with irrational values allowed (the
standard deviation takes a square root). -/
inductive RVal where
  | nan : RVal
  | num : ℝ → RVal

/-- Lines 230-231 of the dashboard:
`returns = df_hist['Actuals'].pct_change()` and
`sharpe_ratio = returns.mean() / returns.std() if returns.std() != 0 else 0`.
When fewer than two valid returns exist, `returns.std()` is NaN; the Python
comparison `nan != 0` is true, so the division is taken and yields NaN. -/
noncomputable def sharpe_ratio (a : List ℚ) : Option RVal :=
  (pctChange a).map (fun rets =>
    match sampleVarQ (validVals rets) with
    | none => RVal.nan
    | some q =>
        if Real.sqrt (q : ℝ) ≠ 0 then
          RVal.num ((listMean (validVals rets) : ℝ) / Real.sqrt (q : ℝ))
        else RVal.num 0)

/-- Spec formula (section 4.4 step 1): period-over-period percentage change
`r_i = (a_i - a_{i-1}) / a_{i-1}`; the first element contributes no return. -/
def returnsOf (a : List ℚ) : List ℚ :=
  List.zipWith (fun p c => (c - p) / p) a a.tail

/-- Spec formula: sample variance (N-1 denominator) of a list of returns. -/
def specVar (r : List ℚ) : ℚ :=
  ((r.map (fun x => (x - listMean r) ^ 2)).sum) / ((r.length : ℚ) - 1)

/-- Spec formula: sample standard deviation of a list of returns. -/
noncomputable def specStd (r : List ℚ) : ℝ := Real.sqrt ((specVar r : ℚ) : ℝ)

lemma sampleVarQ_of_two_le {v : List ℚ} (h : 2 ≤ v.length) :
    sampleVarQ v = some (specVar v) := by
  rw [sampleVarQ, if_neg (by omega)]
  rfl

lemma validVals_nan_map_num (r : List ℚ) :
    validVals (PdVal.nan :: List.map PdVal.num r) = r := by
  rw [validVals, List.filterMap_cons_none rfl, List.filterMap_map]
  exact List.filterMap_some r

/-- Claim C4 counterexample: on the single-point series `[100]`,
`stability_ratio` completes normally and returns NaN (there are no valid
returns, the sample standard deviation is NaN, `nan != 0` is true in Python,
and the division produces NaN); no `InsufficientDataError` is raised. -/
theorem sharpe_single_point_nan_counterexample :
    sharpe_ratio [100] = some RVal.nan
    ∧ RVal.nan ≠ RVal.num 0 := by
  exact ⟨rfl, fun h => RVal.noConfusion h⟩

/-- Claim C4 amended: on any series with fewer than 2 points the stability
ratio silently evaluates to NaN instead of failing. -/
theorem sharpe_short_input_nan (a : List ℚ) (h : a.length < 2) :
    sharpe_ratio a = some RVal.nan := by
  rcases a with _ | ⟨x, _ | ⟨y, t⟩⟩
  · rfl
  · rfl
  · exact absurd h (by simp)

/-- Claim C4 witness for the amended statement: the one-point series `[42]`
yields NaN. -/
theorem sharpe_short_input_nan_witness : sharpe_ratio [42] = some RVal.nan :=
  sharpe_short_input_nan [42] (by decide)

/-- Claim C5 counterexample: on the two-point series `[100, 110]` there is
exactly one return, its sample standard deviation is NaN, and the computed
ratio is NaN -- neither the value `mean(r)/stddev(r)` of the spec formula nor
the value 0 of its zero-stddev clause. -/
theorem sharpe_two_point_counterexample :
    sharpe_ratio [100, 110] = some RVal.nan
    ∧ RVal.nan ≠ RVal.num 0
    ∧ RVal.nan
        ≠ RVal.num ((listMean (returnsOf [100, 110]) : ℝ)
            / specStd (returnsOf [100, 110])) := by
  refine ⟨?_, fun h => RVal.noConfusion h, fun h => RVal.noConfusion h⟩
  have h1 : pctChange [100, 110]
      = some [PdVal.nan, PdVal.num ((110 - 100) / 100)] := by
    rw [pctChange, if_neg (by norm_num)]
    rfl
  rw [sharpe_ratio, h1, Option.map_some']
  rfl

/-- Claim C5 amended: on a series of length at least 3 whose base values are
nonzero, the stability ratio equals the mean of the period-over-period
returns divided by their sample standard deviation, and is 0 when that
standard deviation is 0. (At length exactly 2 the code returns NaN instead,
see the counterexample.) -/
theorem sharpe_ratio_spec (a : List ℚ) (h3 : 3 ≤ a.length)
    (hz : ∀ x ∈ a.dropLast, x ≠ 0) :
    sharpe_ratio a
      = some (if specStd (returnsOf a) = 0 then RVal.num 0
              else RVal.num ((listMean (returnsOf a) : ℝ) / specStd (returnsOf a))) := by
  have hmem : (0 : ℚ) ∉ a.dropLast := fun hm => hz 0 hm rfl
  rcases a with _ | ⟨x, t⟩
  · simp at h3
  · have hpc : pctChange (x :: t)
        = some (PdVal.nan :: List.map PdVal.num (returnsOf (x :: t))) := by
      rw [pctChange, if_neg hmem, returnsOf, List.map_zipWith]
      rfl
    have hlen : 2 ≤ (returnsOf (x :: t)).length := by
      rw [returnsOf, List.length_zipWith]
      simp only [List.length_cons, List.tail_cons]
      simp only [List.length_cons] at h3
      omega
    rw [sharpe_ratio, hpc, Option.map_some', validVals_nan_map_num,
      sampleVarQ_of_two_le hlen]
    show some (if Real.sqrt ((specVar (returnsOf (x :: t)) : ℚ) : ℝ) ≠ 0 then
            RVal.num ((listMean (returnsOf (x :: t)) : ℝ)
              / Real.sqrt ((specVar (returnsOf (x :: t)) : ℚ) : ℝ))
          else RVal.num 0) = _
    refine congrArg some ?_
    simp only [specStd]
    by_cases h : Real.sqrt ((specVar (returnsOf (x :: t)) : ℚ) : ℝ) = 0
    · rw [if_neg (not_not_intro h), if_pos h]
    · rw [if_pos h, if_neg h]

/-- Claim C5 witness for the amended statement: the series `[1, 2, 4, 8]` has
constant returns `[1, 1, 1]`, so the sample standard deviation is 0 and the
stability ratio is 0. -/
theorem sharpe_ratio_spec_witness : sharpe_ratio [1, 2, 4, 8] = some (RVal.num 0) := by
  have h := sharpe_ratio_spec [1, 2, 4, 8] (by decide)
    (by intro x hx; fin_cases hx <;> norm_num)
  have hr : returnsOf [1, 2, 4, 8] = [1, 1, 1] := by norm_num [returnsOf]
  have hv : specVar [1, 1, 1] = 0 := by norm_num [specVar, listMean]
  have hs : specStd [1, 1, 1] = 0 := by
    rw [specStd, hv]
    simp
  rw [h, hr, if_pos hs]

/-- Modelled from the spec: the RSI implementation lives in the external
`ta` package, not in this repository; section 4.5 specifies an exponential
rolling average applied consistently to gains and losses. Recurrence
(Wilder smoothing, `alpha = 1/window`): the first output is the first input,
then `e_i = alpha * x_i + (1 - alpha) * e_im1`. `ewmFrom` continues the
recurrence from a previous smoothed value. -/
def ewmFrom (a : ℚ) (prev : ℚ) : List ℚ → List ℚ
  | [] => []
  | x :: xs => (a * x + (1 - a) * prev) :: ewmFrom a (a * x + (1 - a) * prev) xs

/-- Modelled from the spec: exponential rolling average of a whole series,
seeded with its first element. -/
def ewm (a : ℚ) : List ℚ → List ℚ
  | [] => []
  | x :: xs => x :: ewmFrom a x xs

/-- Modelled from the spec: period-over-period differences of the series. -/
def diffsOf (s : List ℚ) : List ℚ := List.zipWith (fun p c => c - p) s s.tail

/-- Modelled from the spec: positive differences, else 0. -/
def gainsOf (s : List ℚ) : List ℚ := (diffsOf s).map (fun d => max d 0)

/-- Modelled from the spec: absolute value of negative differences, else 0. -/
def lossesOf (s : List ℚ) : List ℚ := (diffsOf s).map (fun d => max (-d) 0)

/-- Modelled from the spec: rolling average of gains over the window. -/
def avgGain (s : List ℚ) (w : ℕ) : List ℚ := ewm (1 / (w : ℚ)) (gainsOf s)

/-- Modelled from the spec: rolling average of losses over the window. -/
def avgLoss (s : List ℚ) (w : ℕ) : List ℚ := ewm (1 / (w : ℚ)) (lossesOf s)

/-- Modelled from the spec: `RSI = 100 - 100/(1+RS)` with `RS = g/l`, and
`RSI = 100` when the average loss is 0 (the float pipeline produces an
infinite RS there, collapsing the formula to 100). -/
def rsiPoint (g l : ℚ) : ℚ := if l = 0 then 100 else 100 - 100 / (1 + g / l)

/-- Modelled from the spec: the RSI value sequence (line 193 calls the
external indicator on the actuals with the default window 14). Leading
entries of the chart are undefined until the window fills; the values the
indicator produces are these. -/
def rsiList (s : List ℚ) (w : ℕ) : List ℚ :=
  List.zipWith rsiPoint (avgGain s w) (avgLoss s w)

lemma rsiPoint_bounds {g l : ℚ} (hg : 0 ≤ g) (hl : 0 ≤ l) :
    0 ≤ rsiPoint g l ∧ rsiPoint g l ≤ 100 := by
  rw [rsiPoint]
  by_cases h : l = 0
  · rw [if_pos h]
    norm_num
  · rw [if_neg h]
    have hlpos : 0 < l := lt_of_le_of_ne hl (Ne.symm h)
    have hrs : 0 ≤ g / l := div_nonneg hg hl
    have h1 : (0 : ℚ) < 1 + g / l := by linarith
    have h2 : 100 / (1 + g / l) ≤ 100 := div_le_self (by norm_num) (by linarith)
    have h3 : 0 < 100 / (1 + g / l) := div_pos (by norm_num) h1
    constructor <;> linarith

lemma ewmFrom_nonneg {a : ℚ} (h0 : 0 ≤ a) (h1 : a ≤ 1) :
    ∀ (xs : List ℚ) (prev : ℚ), 0 ≤ prev → (∀ x ∈ xs, 0 ≤ x) →
      ∀ y ∈ ewmFrom a prev xs, 0 ≤ y
  | [], _, _, _, y, hy => by simp [ewmFrom] at hy
  | x :: xs, prev, hp, hxs, y, hy => by
      have hx : 0 ≤ x := hxs x (List.mem_cons_self x xs)
      have hnext : 0 ≤ a * x + (1 - a) * prev :=
        add_nonneg (mul_nonneg h0 hx) (mul_nonneg (by linarith) hp)
      simp only [ewmFrom] at hy
      rcases List.mem_cons.mp hy with h | h
      · rw [h]
        exact hnext
      · exact ewmFrom_nonneg h0 h1 xs _ hnext
          (fun z hz => hxs z (List.mem_cons_of_mem x hz)) y h

lemma ewm_nonneg {a : ℚ} (h0 : 0 ≤ a) (h1 : a ≤ 1) :
    ∀ (xs : List ℚ), (∀ x ∈ xs, 0 ≤ x) → ∀ y ∈ ewm a xs, 0 ≤ y
  | [], _, y, hy => by simp [ewm] at hy
  | x :: xs, hxs, y, hy => by
      have hx : 0 ≤ x := hxs x (List.mem_cons_self x xs)
      simp only [ewm] at hy
      rcases List.mem_cons.mp hy with h | h
      · rw [h]
        exact hx
      · exact ewmFrom_nonneg h0 h1 xs x hx
          (fun z hz => hxs z (List.mem_cons_of_mem x hz)) y h

lemma gainsOf_nonneg (s : List ℚ) : ∀ x ∈ gainsOf s, 0 ≤ x := by
  intro x hx
  rcases List.mem_map.mp hx with ⟨d, _, rfl⟩
  exact le_max_right d 0

lemma lossesOf_nonneg (s : List ℚ) : ∀ x ∈ lossesOf s, 0 ≤ x := by
  intro x hx
  rcases List.mem_map.mp hx with ⟨d, _, rfl⟩
  exact le_max_right (-d) 0

lemma zipWith_rsiPoint_bounds :
    ∀ (A B : List ℚ), (∀ x ∈ A, 0 ≤ x) → (∀ x ∈ B, 0 ≤ x) →
      ∀ v ∈ List.zipWith rsiPoint A B, 0 ≤ v ∧ v ≤ 100
  | [], _, _, _, v, hv => by simp at hv
  | _ :: _, [], _, _, v, hv => by simp at hv
  | a :: A, b :: B, hA, hB, v, hv => by
      rw [List.zipWith_cons_cons] at hv
      rcases List.mem_cons.mp hv with h | h
      · rw [h]
        exact rsiPoint_bounds (hA a (List.mem_cons_self a A))
          (hB b (List.mem_cons_self b B))
      · exact zipWith_rsiPoint_bounds A B
          (fun x hx => hA x (List.mem_cons_of_mem a hx))
          (fun x hx => hB x (List.mem_cons_of_mem b hx)) v h

lemma zipWith_rsiPoint_loss_zero :
    ∀ (A B : List ℚ) (i : ℕ) (hi : i < (List.zipWith rsiPoint A B).length)
      (hb : i < B.length), B.get ⟨i, hb⟩ = 0 →
      (List.zipWith rsiPoint A B).get ⟨i, hi⟩ = 100
  | [], _, i, hi, _, _ => by simp at hi
  | _ :: _, [], i, hi, _, _ => by simp at hi
  | a :: A, b :: B, 0, hi, hb, h0 => by
      have hb0 : b = 0 := h0
      show rsiPoint a b = 100
      rw [rsiPoint, if_pos hb0]
  | a :: A, b :: B, i + 1, hi, hb, h0 => by
      have hi2 : i < (List.zipWith rsiPoint A B).length := by
        rw [List.zipWith_cons_cons, List.length_cons] at hi
        omega
      have hb2 : i < B.length := by
        rw [List.length_cons] at hb
        omega
      have h02 : B.get ⟨i, hb2⟩ = 0 := h0
      exact zipWith_rsiPoint_loss_zero A B i hi2 hb2 h02

/-- Claim C8: every value the RSI indicator produces on a series of length at
least 14 lies in the closed interval [0, 100], and at any index where the
rolling average loss is 0 the RSI value is exactly 100. -/
theorem rsi_bounds (s : List ℚ) (hw : 14 ≤ s.length) :
    (∀ v ∈ rsiList s 14, 0 ≤ v ∧ v ≤ 100)
    ∧ (∀ (i : ℕ) (hi : i < (rsiList s 14).length) (hl : i < (avgLoss s 14).length),
        (avgLoss s 14).get ⟨i, hl⟩ = 0 → (rsiList s 14).get ⟨i, hi⟩ = 100) := by
  have ha : (0 : ℚ) ≤ 1 / (14 : ℚ) := by norm_num
  have hb : (1 : ℚ) / (14 : ℚ) ≤ 1 := by norm_num
  constructor
  · exact zipWith_rsiPoint_bounds (avgGain s 14) (avgLoss s 14)
      (ewm_nonneg ha hb (gainsOf s) (gainsOf_nonneg s))
      (ewm_nonneg ha hb (lossesOf s) (lossesOf_nonneg s))
  · intro i hi hl h0
    exact zipWith_rsiPoint_loss_zero (avgGain s 14) (avgLoss s 14) i hi hl h0

/-- Claim C8 witness: on the constant 15-point series every difference is 0,
the rolling average loss is 0 everywhere, and 100 is among the produced RSI
values with 0 ≤ 100 ≤ 100. -/
theorem rsi_bounds_witness :
    (100 : ℚ) ∈ rsiList (List.replicate 15 5) 14
    ∧ 0 ≤ (100 : ℚ) ∧ (100 : ℚ) ≤ 100 := by
  have hmem : (100 : ℚ) ∈ rsiList (List.replicate 15 5) 14 := by
    norm_num [rsiList, avgGain, avgLoss, ewm, ewmFrom, gainsOf, lossesOf, diffsOf,
      rsiPoint, List.replicate]
  exact ⟨hmem, (rsi_bounds (List.replicate 15 5) (by decide)).1 100 hmem⟩

/-- Modelled from the spec: the Bollinger implementation lives in the
external `ta` package, not in this repository; section 4.5 specifies rolling
mean and rolling sample standard deviation over trailing `w` points. Window
`j` holds the points at indices `j .. j+w-1`; output index `i = j + w - 1`
is the first index with a full trailing window. -/
def windows (w : ℕ) (l : List ℚ) : List (List ℚ) :=
  (List.range (l.length + 1 - w)).map (fun j => (l.drop j).take w)

/-- Modelled from the spec: rolling mean over trailing windows. -/
def rollMean (w : ℕ) (l : List ℚ) : List ℚ := (windows w l).map listMean

/-- Modelled from the spec: rolling sample variance over trailing windows. -/
def rollVar (w : ℕ) (l : List ℚ) : List ℚ := (windows w l).map specVar

/-- Modelled from the spec: rolling sample standard deviation. -/
noncomputable def rollStd (w : ℕ) (l : List ℚ) : List ℝ :=
  (rollVar w l).map (fun q => Real.sqrt ((q : ℚ) : ℝ))

/-- Modelled from the spec: upper band `m_i + num_std * s_i` (line 212 calls
the external indicator with the defaults `window = 20`, `num_std = 2`). -/
noncomputable def bollUpper (w : ℕ) (ns : ℝ) (l : List ℚ) : List ℝ :=
  List.zipWith (fun (m : ℚ) (s : ℝ) => (m : ℝ) + ns * s) (rollMean w l) (rollStd w l)

/-- Modelled from the spec: lower band `m_i - num_std * s_i`. -/
noncomputable def bollLower (w : ℕ) (ns : ℝ) (l : List ℚ) : List ℝ :=
  List.zipWith (fun (m : ℚ) (s : ℝ) => (m : ℝ) - ns * s) (rollMean w l) (rollStd w l)

lemma getD_zipWith_fun (f : ℚ → ℝ → ℝ) :
    ∀ (A : List ℚ) (B : List ℝ) (i : ℕ), i < A.length → i < B.length →
      (List.zipWith f A B).getD i 0 = f (A.getD i 0) (B.getD i 0)
  | [], _, i, ha, _ => by simp at ha
  | _ :: _, [], i, _, hb => by simp at hb
  | a :: A, b :: B, 0, _, _ => by
      rw [List.zipWith_cons_cons, List.getD_cons_zero, List.getD_cons_zero,
        List.getD_cons_zero]
  | a :: A, b :: B, i + 1, ha, hb => by
      rw [List.zipWith_cons_cons, List.getD_cons_succ, List.getD_cons_succ,
        List.getD_cons_succ]
      exact getD_zipWith_fun f A B i (by simpa using ha) (by simpa using hb)

/-- Claim C9: at every defined index, the upper band is the rolling mean plus
`num_std` rolling sample standard deviations, the lower band is the mean
minus the same, and the band width is `2 * num_std` standard deviations
(with the dashboard defaults `window = 20`, `num_std = 2`). -/
theorem bollinger_band_width (l : List ℚ) (i : ℕ)
    (hi : i < (windows 20 l).length) :
    (bollUpper 20 2 l).getD i 0
        = ((rollMean 20 l).getD i 0 : ℝ) + 2 * (rollStd 20 l).getD i 0
    ∧ (bollLower 20 2 l).getD i 0
        = ((rollMean 20 l).getD i 0 : ℝ) - 2 * (rollStd 20 l).getD i 0
    ∧ (bollUpper 20 2 l).getD i 0 - (bollLower 20 2 l).getD i 0
        = 2 * 2 * (rollStd 20 l).getD i 0 := by
  have hm : i < (rollMean 20 l).length := by
    rw [rollMean, List.length_map]
    exact hi
  have hs : i < (rollStd 20 l).length := by
    rw [rollStd, rollVar, List.length_map, List.length_map]
    exact hi
  have h1 : (bollUpper 20 2 l).getD i 0
      = ((rollMean 20 l).getD i 0 : ℝ) + 2 * (rollStd 20 l).getD i 0 := by
    rw [bollUpper]
    exact getD_zipWith_fun (fun m s => (m : ℝ) + 2 * s)
      (rollMean 20 l) (rollStd 20 l) i hm hs
  have h2 : (bollLower 20 2 l).getD i 0
      = ((rollMean 20 l).getD i 0 : ℝ) - 2 * (rollStd 20 l).getD i 0 := by
    rw [bollLower]
    exact getD_zipWith_fun (fun m s => (m : ℝ) - 2 * s)
      (rollMean 20 l) (rollStd 20 l) i hm hs
  refine ⟨h1, h2, ?_⟩
  rw [h1, h2]
  ring

/-- Claim C9 witness: for a constant 20-point series there is exactly one
defined index, and the band width there is `2 * 2` standard deviations. -/
theorem bollinger_band_width_witness :
    (bollUpper 20 2 (List.replicate 20 3)).getD 0 0
        - (bollLower 20 2 (List.replicate 20 3)).getD 0 0
      = 2 * 2 * (rollStd 20 (List.replicate 20 3)).getD 0 0 :=
  (bollinger_band_width (List.replicate 20 3) 0
    (by simp [windows, List.length_replicate])).2.2

end ForecastDashboard
